import Mathlib

/-!
Verification development for the template command execution and security
sandbox of the AIeXporter repository. The Python sources embedded here are
aix/commands/security.py (DefaultSecurityValidator), aix/commands/executor.py
(ShellCommand, IntelligentShellCommand, CommandExecutor), aix/command_executor.py
(the older CommandExecutor revision), aix/placeholder_generator.py
(PlaceholderExecutor) and aix/template.py (PromptTemplate.render variable merge).
Operating system process spawning is represented by an explicit runner
parameter, a function from a command string to the (success, stdout, stderr)
triple that subprocess.run based execution produces; everything else is
translated directly from the source.
-/

set_option maxRecDepth 8192

/-- Characters written via code points to keep literals unambiguous. -/
def sqChar : Char := Char.ofNat 39

def dqChar : Char := Char.ofNat 34

def bsChar : Char := Char.ofNat 92

def lbChar : Char := Char.ofNat 123

def rbChar : Char := Char.ofNat 125

def nlChar : Char := Char.ofNat 10

def tabChar : Char := Char.ofNat 9

def crChar : Char := Char.ofNat 13

def ffChar : Char := Char.ofNat 12

def vtChar : Char := Char.ofNat 11

/-- Whitespace set of python str.strip and str.split with no argument
(ASCII part, which is all the embedded code relies on). -/
def isPyWs (c : Char) : Bool :=
  c = ' ' || c = tabChar || c = nlChar || c = crChar || c = ffChar || c = vtChar

/-- Whitespace set of the shlex lexer: shlex.whitespace is space, tab,
carriage return and newline. -/
def isShWs (c : Char) : Bool :=
  c = ' ' || c = tabChar || c = crChar || c = nlChar

/-- Boolean prefix test on character lists. -/
def listStarts : List Char → List Char → Bool
  | [], _ => true
  | _ :: _, [] => false
  | a :: as, b :: bs => a = b && listStarts as bs

/-- Boolean substring test, python in operator on strings. -/
def listInfixB (n h : List Char) : Bool :=
  listStarts n h ||
    match h with
    | [] => false
    | _ :: t => listInfixB n t

/-- ASCII lowering, python str.lower on the characters the code handles. -/
def lowerList (cs : List Char) : List Char := cs.map Char.toLower

/-- Python str.strip with no argument. -/
def pyStripList (cs : List Char) : List Char :=
  ((cs.dropWhile isPyWs).reverse.dropWhile isPyWs).reverse

def pyStrip (s : String) : String := String.mk (pyStripList s.data)

def pyLower (s : String) : String := String.mk (lowerList s.data)

/-- Python str.startswith. -/
def strStarts (s pre : String) : Bool := listStarts pre.data s.data

/-- Python str.endswith. -/
def strEnds (s suf : String) : Bool := listStarts suf.data.reverse s.data.reverse

/-- Python in operator on strings. -/
def strInfixB (needle hay : String) : Bool := listInfixB needle.data hay.data

/-- Python str.split with no argument: split on whitespace runs, no empties. -/
def pySplitAux : List Char → List Char → List String
  | acc, [] => if acc.isEmpty then [] else [String.mk acc.reverse]
  | acc, c :: t =>
    if isPyWs c then
      if acc.isEmpty then pySplitAux [] t
      else String.mk acc.reverse :: pySplitAux [] t
    else pySplitAux (c :: acc) t

def pySplit (s : String) : List String := pySplitAux [] s.data

/-- Python str.join with a separator. -/
def joinWith (sep : String) : List String → String
  | [] => ""
  | [x] => x
  | x :: xs => x ++ sep ++ joinWith sep xs

/-- Python str.replace core, replacing every non overlapping occurrence left
to right. The fuel argument is the input length plus one; each step consumes
at least one character of the haystack, so the fuel never runs out on the
wrapper below. -/
def replAux (n r : List Char) : Nat → List Char → List Char
  | 0, h => h
  | _ + 1, [] => []
  | f + 1, c :: t =>
    if listStarts n (c :: t) then r ++ replAux n r f ((c :: t).drop n.length)
    else c :: replAux n r f t

/-- Python str.replace (the embedded code never calls it with an empty
needle). -/
def pyReplace (s needle repl : String) : String :=
  String.mk (replAux needle.data repl.data (s.data.length + 1) s.data)

/-! ## shlex.split, posix mode

Embedding of the tokenizer used by both validators: whitespace separated
words, single quotes literal, double quotes with backslash escaping only the
quote and the backslash, backslash escaping any character outside quotes.
An unterminated quote or a trailing escape raises ValueError in python,
modelled as none. -/

inductive ShMode
  | norm
  | sq
  | dq
  | escN
  | escD
  deriving DecidableEq

/-- One pass state machine over the input characters. acc holds finished
words in reverse order, cur the word in progress (some even when empty, so
that empty quoted strings produce empty tokens). -/
def shlexGo : List Char → List String → Option (List Char) → ShMode → Option (List String)
  | [], acc, cur, m =>
    match m with
    | ShMode.norm =>
      match cur with
      | none => some acc.reverse
      | some w => some (String.mk w.reverse :: acc).reverse
    | _ => none
  | c :: t, acc, cur, m =>
    match m with
    | ShMode.norm =>
      if isShWs c then
        match cur with
        | none => shlexGo t acc none ShMode.norm
        | some w => shlexGo t (String.mk w.reverse :: acc) none ShMode.norm
      else if c = sqChar then shlexGo t acc (some (cur.getD [])) ShMode.sq
      else if c = dqChar then shlexGo t acc (some (cur.getD [])) ShMode.dq
      else if c = bsChar then shlexGo t acc (some (cur.getD [])) ShMode.escN
      else shlexGo t acc (some (c :: cur.getD [])) ShMode.norm
    | ShMode.sq =>
      if c = sqChar then shlexGo t acc cur ShMode.norm
      else shlexGo t acc (some (c :: cur.getD [])) ShMode.sq
    | ShMode.dq =>
      if c = dqChar then shlexGo t acc cur ShMode.norm
      else if c = bsChar then shlexGo t acc cur ShMode.escD
      else shlexGo t acc (some (c :: cur.getD [])) ShMode.dq
    | ShMode.escN => shlexGo t acc (some (c :: cur.getD [])) ShMode.norm
    | ShMode.escD =>
      if c = dqChar || c = bsChar then shlexGo t acc (some (c :: cur.getD [])) ShMode.dq
      else shlexGo t acc (some (c :: bsChar :: cur.getD [])) ShMode.dq

/-- shlex.split(command) with posix semantics; none models ValueError. -/
def shlexSplit (s : String) : Option (List String) :=
  shlexGo s.data [] none ShMode.norm

/-! ## Dangerous pattern matching

A small regular expression engine by Brzozowski derivatives, enough for the
fixed pattern lists of both validators (literals, the \s class, character
classes, the dot, star, and the anchors used). re.IGNORECASE is modelled by
lowering the input; every letter in the patterns is already lowercase. -/

inductive Re
  | emp
  | eps
  | chr (p : Char → Bool)
  | seq (a b : Re)
  | alt (a b : Re)
  | star (a : Re)

def Re.isEmp : Re → Bool
  | Re.emp => true
  | _ => false

def mkSeq : Re → Re → Re
  | Re.emp, _ => Re.emp
  | _, Re.emp => Re.emp
  | Re.eps, b => b
  | a, Re.eps => a
  | a, b => Re.seq a b

def mkAlt : Re → Re → Re
  | Re.emp, b => b
  | a, Re.emp => a
  | a, b => Re.alt a b

def Re.nullable : Re → Bool
  | Re.emp => false
  | Re.eps => true
  | Re.chr _ => false
  | Re.seq a b => a.nullable && b.nullable
  | Re.alt a b => a.nullable || b.nullable
  | Re.star _ => true

def Re.deriv : Re → Char → Re
  | Re.emp, _ => Re.emp
  | Re.eps, _ => Re.emp
  | Re.chr p, c => if p c then Re.eps else Re.emp
  | Re.seq a b, c =>
    if a.nullable then mkAlt (mkSeq (a.deriv c) b) (b.deriv c)
    else mkSeq (a.deriv c) b
  | Re.alt a b, c => mkAlt (a.deriv c) (b.deriv c)
  | Re.star a, c => mkSeq (a.deriv c) (Re.star a)

/-- Does the pattern match some prefix of the input. -/
def matchesPre (r : Re) (cs : List Char) : Bool :=
  if r.isEmp then false
  else
    r.nullable ||
      match cs with
      | [] => false
      | c :: t => matchesPre (r.deriv c) t

/-- Does the pattern match the whole input. -/
def matchAll (r : Re) (cs : List Char) : Bool :=
  if r.isEmp then false
  else
    match cs with
    | [] => r.nullable
    | c :: t => matchAll (r.deriv c) t

/-- re.search without anchors: the pattern matches starting at some position. -/
def searchAnywhere (r : Re) (cs : List Char) : Bool :=
  matchesPre r cs ||
    match cs with
    | [] => false
    | _ :: t => searchAnywhere r t

/-- re.search for a pattern ending in a dollar anchor: the match must extend
to the end of the input, or to just before one final newline. -/
def searchToEnd (r : Re) (cs : List Char) : Bool :=
  matchAll (mkSeq r (mkAlt Re.eps (Re.chr (fun c => c = nlChar)))) cs ||
    match cs with
    | [] => false
    | _ :: t => searchToEnd r t

inductive Anchor
  | free
  | bol
  | eol

/-- Run one pattern against the lowered input, honoring its anchor. -/
def runPat : Anchor × Re → List Char → Bool
  | (Anchor.free, r), cs => searchAnywhere r cs
  | (Anchor.bol, r), cs => matchesPre r cs
  | (Anchor.eol, r), cs => searchToEnd r cs

def chrEq (c : Char) : Re := Re.chr (fun x => x = c)

def litRe (s : String) : Re := s.data.foldr (fun c r => mkSeq (chrEq c) r) Re.eps

def catR (l : List Re) : Re := l.foldr mkSeq Re.eps

/-- The \s class of the re module (ASCII part). -/
def wsRe : Re := Re.chr isPyWs

def wsPlus : Re := mkSeq wsRe (Re.star wsRe)

def wsStar : Re := Re.star wsRe

/-- The dot of the re module without DOTALL: anything but a newline. -/
def dotStar : Re := Re.star (Re.chr (fun c => !(c = nlChar)))

/-- dangerous_patterns of DefaultSecurityValidator in aix/commands/security.py,
in source order. -/
def secDangerousPatterns : List (Anchor × Re) :=
  [ (Anchor.free, catR [litRe "rm", wsPlus, litRe "-rf", wsPlus, litRe "/"]),
    (Anchor.free, catR [litRe ":()", wsStar, chrEq lbChar, wsStar, litRe ":|:&", wsStar,
      chrEq rbChar, wsStar, litRe ";", wsStar, litRe ":"]),
    (Anchor.free, catR [litRe ">", wsStar, litRe "/dev/sd",
      Re.chr (fun c => 'a' ≤ c && c ≤ 'z')]),
    (Anchor.free, catR [litRe "dd", wsPlus, dotStar, litRe "of", wsStar, litRe "=", wsStar,
      litRe "/dev/"]),
    (Anchor.free, catR [litRe "chmod", wsPlus, litRe "777", wsPlus, litRe "/"]),
    (Anchor.free, catR [litRe "chown", wsPlus, dotStar, wsPlus, litRe "/"]),
    (Anchor.eol, catR [litRe "|", wsStar, litRe "sh", wsStar]),
    (Anchor.free, catR [litRe "$(", dotStar, litRe "$(", dotStar, litRe ")", dotStar,
      litRe ")"]),
    (Anchor.bol, catR [wsStar, litRe "eval", wsPlus]),
    (Anchor.bol, catR [wsStar, litRe "exec", wsPlus]),
    (Anchor.bol, catR [wsStar, litRe "source", wsPlus]),
    (Anchor.bol, catR [wsStar, litRe ".", wsPlus]),
    (Anchor.free, catR [litRe "mv", wsPlus, dotStar, wsPlus, litRe "/"]),
    (Anchor.eol, catR [litRe "cp", wsPlus, dotStar, wsPlus, litRe "/", wsStar]),
    (Anchor.eol, catR [litRe "rsync", wsPlus, dotStar, wsPlus, litRe "/", wsStar]) ]

/-- dangerous_patterns of CommandExecutor._contains_dangerous_patterns in
aix/command_executor.py, in source order. Note the pipe to shell pattern has
no dollar anchor in this revision. -/
def ceDangerousPatterns : List (Anchor × Re) :=
  [ (Anchor.free, catR [litRe "rm", wsPlus, litRe "-rf", wsPlus, litRe "/"]),
    (Anchor.free, catR [litRe ":()", wsStar, chrEq lbChar, wsStar, litRe ":|:&", wsStar,
      chrEq rbChar, wsStar, litRe ";", wsStar, litRe ":"]),
    (Anchor.free, catR [litRe ">", wsStar, litRe "/dev/sd",
      Re.chr (fun c => 'a' ≤ c && c ≤ 'z')]),
    (Anchor.free, catR [litRe "dd", wsPlus, dotStar, litRe "of", wsStar, litRe "=", wsStar,
      litRe "/dev/"]),
    (Anchor.free, catR [litRe "chmod", wsPlus, litRe "777", wsPlus, litRe "/"]),
    (Anchor.free, catR [litRe "chown", wsPlus, dotStar, wsPlus, litRe "/"]),
    (Anchor.free, catR [litRe "|", wsStar, litRe "sh"]),
    (Anchor.free, catR [litRe "$(", dotStar, litRe "$(", dotStar, litRe ")", dotStar,
      litRe ")"]) ]

def dangerousSec (command : String) : Bool :=
  secDangerousPatterns.any (fun p => runPat p (lowerList command.data))

def dangerousCE (command : String) : Bool :=
  ceDangerousPatterns.any (fun p => runPat p (lowerList command.data))

/-! ## DefaultSecurityValidator, aix/commands/security.py -/

/-- Default disabled_commands of DefaultSecurityValidator. -/
def secDefaultDisabled : List String :=
  [ "rm", "rmdir", "del", "delete", "format", "fdisk", "mkfs", "dd",
    "shutdown", "reboot", "halt", "poweroff", "init", "kill", "killall",
    "pkill", "chmod", "chown", "chgrp", "passwd", "sudo", "su", "doas",
    "runas", "wget", "curl", "ssh", "scp", "ftp", "sftp", "nc", "netcat",
    "telnet" ]

/-- One iteration of the disabled command loop of
DefaultSecurityValidator.is_allowed: exact match of the base command, base
command starting with the entry plus a space or tab, and the substring check
reserved for entries ending in space slash, starting with a colon, or equal
to a dot. -/
def secEntryHit (base cmdLower d : String) : Bool :=
  base = d ||
    strStarts base (d ++ " ") || strStarts base (d ++ String.mk [tabChar]) ||
    ((strEnds d " /" || strStarts d ":" || d = ".") && strInfixB d cmdLower)

/-- DefaultSecurityValidator.is_allowed. -/
def isAllowedSec (ds : List String) (command : String) : Bool :=
  if pyStrip command = "" then false
  else
    match shlexSplit command with
    | none => false
    | some [] => false
    | some (base :: _) =>
      if ds.any (secEntryHit base (pyStrip (pyLower command))) then false
      else if dangerousSec command then false
      else true

/-- DefaultSecurityValidator.get_error_message. -/
def getErrorMessageSec (command : String) : String :=
  "Command disabled for security: " ++ command

/-! ## CommandExecutor of aix/command_executor.py -/

/-- Default disabled_commands of the aix/command_executor.py revision. -/
def ceDefaultDisabled : List String :=
  [ "rm", "rmdir", "del", "delete", "format", "fdisk", "mkfs", "dd",
    "shutdown", "reboot", "halt", "poweroff", "init", "kill", "killall",
    "pkill", "chmod", "chown", "chgrp", "passwd", "sudo", "su", "doas",
    "runas", "mv", "cp /", "rsync /", "tar --", "gzip -d /", "gunzip /",
    "unzip /", "wget", "curl", "ssh", "scp", "ftp", "sftp", "nc", "netcat",
    "telnet", "ping -f", "fork", ":()", "eval", "exec", "source", "." ]

/-- One iteration of the disabled command loop of
CommandExecutor.is_command_allowed in aix/command_executor.py: the base
command starting with the entry, or the entry occurring anywhere in the
lowered stripped command line. -/
def ceEntryHit (base cmdLower d : String) : Bool :=
  strStarts base d || strInfixB d cmdLower

/-- CommandExecutor.is_command_allowed of aix/command_executor.py. -/
def isCommandAllowedCE (ds : List String) (command : String) : Bool :=
  if pyStrip command = "" then false
  else
    match shlexSplit command with
    | none => false
    | some [] => false
    | some (base :: _) =>
      if ds.any (ceEntryHit base (pyStrip (pyLower command))) then false
      else if dangerousCE command then false
      else true

/-! ## ShellCommand and IntelligentShellCommand, aix/commands/executor.py

A runner models ShellCommand.execute: the (success, stdout, stderr) triple
obtained from subprocess.run with shell interpretation, with timeout and
spawn failures already folded into a false success and message stderr, as
the python except clauses do. -/

def Runner : Type := String → Bool × String × String

/-- IntelligentShellCommand._build_alternatives. The git branch tests the
string "not a git repository" against str(self), which is the default object
repr of the command instance and never contains that text, so the git case
contributes no alternatives. -/
def buildAlternatives (commandString : String) : List (String × String) :=
  match pySplit commandString with
  | [] => []
  | base :: args =>
    if base = "python" then
      [ ("python3 " ++ joinWith " " args, "python3 commonly used instead of python"),
        ("python3.12 " ++ joinWith " " args, "trying specific Python version"),
        ("/usr/bin/python3 " ++ joinWith " " args, "using full path") ]
    else if base = "git" then []
    else if base = "node" || base = "npm" then
      [ ("which node || which nodejs", "checking for Node.js installation"),
        ("ls /usr/local/bin/node* 2>/dev/null || echo \x27Node.js not found\x27",
          "looking for Node.js binaries") ]
    else if base = "docker" then
      [ ("which docker || echo \x27Docker not installed\x27",
          "checking Docker installation"),
        ("podman " ++ joinWith " " args, "trying Podman as alternative") ]
    else []

/-- Loop body of IntelligentShellCommand.execute over the alternatives; the
pair argument carries the stdout and stderr of the most recent attempt, which
the loop rebinds on every failing alternative. The returned list records
every command string handed to the runner. -/
def intelligentAlts (runner : Runner) (orig : String) :
    List (String × String) → String × String → List String →
    (Bool × String × String) × List String
  | [], (o, e), tr => ((false, o, e), tr)
  | (alt, reason) :: rest, (_, _), tr =>
    let t := runner alt
    if t.1 then
      ((true,
        pyStrip t.2.1 ++ "\n[Note: Used \x27" ++ alt ++ "\x27 instead of \x27" ++
          orig ++ "\x27 (" ++ reason ++ ")]",
        t.2.2), tr ++ [alt])
    else intelligentAlts runner orig rest (t.2.1, t.2.2) (tr ++ [alt])

/-- IntelligentShellCommand.execute, instrumented with the list of command
strings that actually reach the runner. -/
def intelligentExecuteT (runner : Runner) (commandString : String) :
    (Bool × String × String) × List String :=
  let t := runner commandString
  if t.1 then (t, [commandString])
  else intelligentAlts runner commandString (buildAlternatives commandString)
    (t.2.1, t.2.2) [commandString]

/-- CommandExecutor.execute of aix/commands/executor.py with the default
intelligent flag: validate the original command string, then hand it to
IntelligentShellCommand. The instrumentation records the commands that reach
the runner; a command denied by the validator reaches nothing. -/
def executorExecuteT (allowed : String → Bool) (errMsg : String → String)
    (runner : Runner) (commandString : String) :
    (Bool × String × String) × List String :=
  if allowed commandString then intelligentExecuteT runner commandString
  else ((false, "", errMsg commandString), [])

/-! ## Fragment extraction, aix/commands/executor.py process_template

re.findall of the three command patterns: a nonempty run of characters other
than the closing delimiter, between the opening tag and the closing
delimiter. The scanners walk left to right and resume after each match,
exactly as re.findall does for these patterns. -/

/-- Longest run of characters before the stop character; none when the stop
character never occurs. -/
def takeCapGo (stop : Char) : List Char → Option (List Char × List Char)
  | [] => none
  | c :: rest =>
    if c = stop then some ([], rest)
    else
      match takeCapGo stop rest with
      | some (cap, rem) => some (c :: cap, rem)
      | none => none

/-- Capture for a pattern of shape open [^stop]+ stop: at least one captured
character is required. -/
def takeCap (stop : Char) (cs : List Char) : Option (List Char × List Char) :=
  match takeCapGo stop cs with
  | some (cap, rem) => if cap.isEmpty then none else some (cap, rem)
  | none => none

/-- Generic findall scanner for one of the three command patterns. The fuel
starts above the input length; every recursive call drops at least one input
character and one unit of fuel. -/
def scanFind (openTag : List Char) (stop : Char) : Nat → List Char → List String
  | 0, _ => []
  | f + 1, cs =>
    if listStarts openTag cs then
      match takeCap stop (cs.drop openTag.length) with
      | some (cap, rem) => String.mk cap :: scanFind openTag stop f rem
      | none =>
        match cs with
        | [] => []
        | _ :: t => scanFind openTag stop f t
    else
      match cs with
      | [] => []
      | _ :: t => scanFind openTag stop f t

/-- re.findall of the dollar parenthesis pattern, returning captures. -/
def extractDollar (s : String) : List String :=
  scanFind ['$', '('] ')' (s.data.length + 1) s.data

/-- re.findall of the cmd colon pattern. -/
def extractCmdTag (s : String) : List String :=
  scanFind (lbChar :: ("cmd:").data) rbChar (s.data.length + 1) s.data

/-- re.findall of the alternate command pattern spelled with the other tag
word. -/
def extractExecTag (s : String) : List String :=
  scanFind (lbChar :: ("exec:").data) rbChar (s.data.length + 1) s.data

def wrapDollar (c : String) : String := "$(" ++ c ++ ")"

def wrapCmdTag (c : String) : String := "\x7bcmd:" ++ c ++ "\x7d"

def wrapExecTag (c : String) : String := "\x7bexec:" ++ c ++ "\x7d"

/-! ## process_template of aix/commands/executor.py -/

/-- Association list lookup, the membership and indexing of the
command_outputs dictionary. -/
def alookup {α : Type} (k : String) : List (String × α) → Option α
  | [] => none
  | (a, b) :: t => if a = k then some b else alookup k t

/-- State threaded through process_template: the partially substituted text,
the command_outputs dictionary in insertion order, and the instrumentation
trace of payloads handed to CommandExecutor.execute. -/
structure PTState where
  res : String
  outs : List (String × String)
  tr : List String
  deriving DecidableEq, Repr

/-- Body of the inner findall loop of process_template: execute the payload
unless memoized, record the stripped stdout or stderr, then replace every
occurrence of the rebuilt placeholder by the recorded output. -/
def runStep (exe : String → Bool × String × String) (wrap : String → String)
    (c : String) (st : PTState) : PTState :=
  match alookup c st.outs with
  | some v => { st with res := pyReplace st.res (wrap c) v }
  | none =>
    let t := exe c
    let v := pyStrip (if t.1 then t.2.1 else t.2.2)
    { res := pyReplace st.res (wrap c) v,
      outs := st.outs ++ [(c, v)],
      tr := st.tr ++ [c] }

def runCmds (exe : String → Bool × String × String) (wrap : String → String) :
    List String → PTState → PTState
  | [], st => st
  | c :: rest, st => runCmds exe wrap rest (runStep exe wrap c st)

/-- CommandExecutor.process_template of aix/commands/executor.py: substitute
the caller variables first, then run the three command patterns in order,
each findall taken on the text as it stands when that pattern is processed. -/
def substVars (template : String) (vars : List (String × String)) : String :=
  vars.foldl (fun r kv => pyReplace r ("\x7b" ++ kv.1 ++ "\x7d") kv.2) template

def processTemplate (allowed : String → Bool) (errMsg : String → String)
    (runner : Runner) (template : String) (vars : List (String × String)) :
    PTState :=
  let exe := fun c => (executorExecuteT allowed errMsg runner c).1
  let r0 := substVars template vars
  let st1 := runCmds exe wrapDollar (extractDollar r0) ⟨r0, [], []⟩
  let st2 := runCmds exe wrapCmdTag (extractCmdTag st1.res) st1
  runCmds exe wrapExecTag (extractExecTag st2.res) st2

/-- process_template with the default DefaultSecurityValidator, the
configuration the CLI render path constructs. -/
def processTemplateDef (runner : Runner) (template : String)
    (vars : List (String × String)) : PTState :=
  processTemplate (isAllowedSec secDefaultDisabled) getErrorMessageSec runner
    template vars

/-- Command payloads encountered during one process_template call: the
findall captures of the three command patterns, each taken on the text as it
stands when that pattern is processed, mirroring the extraction points of
processTemplate. Variable placeholders never appear here, because the three
scanners recognize only the command syntaxes. -/
def encounteredPayloads (allowed : String → Bool) (errMsg : String → String)
    (runner : Runner) (template : String) (vars : List (String × String)) :
    List String :=
  let exe := fun c => (executorExecuteT allowed errMsg runner c).1
  let r0 := substVars template vars
  let st1 := runCmds exe wrapDollar (extractDollar r0) ⟨r0, [], []⟩
  let st2 := runCmds exe wrapCmdTag (extractCmdTag st1.res) st1
  extractDollar r0 ++ extractCmdTag st1.res ++ extractExecTag st2.res

/-! ## try_command_alternatives, aix/command_executor.py -/

/-- CommandExecutor.execute_command of aix/command_executor.py: validate,
then run; a denied command yields the security message as stderr without
reaching the runner. -/
def executeCommandCE (runner : Runner) (command : String) : Bool × String × String :=
  if isCommandAllowedCE ceDefaultDisabled command then runner command
  else (false, "", "Command disabled for security: " ++ command)

/-- CommandExecutor._get_command_alternatives of aix/command_executor.py,
the full rule table in source order. -/
def getCommandAlternatives (command error : String) : List (String × String) :=
  match pySplit command with
  | [] => []
  | base :: args =>
    let el := pyLower error
    let joined := joinWith " " args
    (if base = "python" &&
        (strInfixB "command not found" el || strInfixB "not found" el) then
      [ ("python3 " ++ joined, "python3 commonly used instead of python"),
        ("python3.12 " ++ joined, "trying specific Python version"),
        ("python3.11 " ++ joined, "trying specific Python version"),
        ("/usr/bin/python3 " ++ joined, "using full path") ]
    else []) ++
    (if base = "git" then
      if strInfixB "not a git repository" el then
        [ ("find . -name \x27.git\x27 -type d 2>/dev/null | head -1",
            "finding git repositories"),
          ("ls -la", "showing directory contents to understand structure") ]
      else if strInfixB "unknown revision" el then
        [ ("git status", "checking repository status"),
          ("git branch -a", "listing all branches") ]
      else []
    else []) ++
    (if (base = "node" || base = "npm") && strInfixB "command not found" el then
      [ ("which node || which nodejs", "checking for Node.js installation"),
        ("ls /usr/local/bin/node* 2>/dev/null || echo \x27Node.js not found\x27",
          "looking for Node.js binaries") ]
    else []) ++
    (if base = "docker" && strInfixB "command not found" el then
      [ ("which docker || echo \x27Docker not installed\x27",
          "checking Docker installation"),
        ("podman " ++ joined, "trying Podman as alternative") ]
    else []) ++
    (if strInfixB "command not found" el || strInfixB "not found" el then
      [ ("which " ++ base ++ " || echo \x27Command " ++ base ++
          " not found in PATH\x27", "checking if command exists"),
        ("whereis " ++ base, "finding command location"),
        ("echo $PATH", "showing current PATH") ]
    else []) ++
    (if strInfixB "permission denied" el then
      [ ("ls -la $(which " ++ base ++ " 2>/dev/null || echo \x27/usr/bin/" ++
          base ++ "\x27)", "checking command permissions") ]
    else [])

/-- Loop of try_command_alternatives over the alternatives. The stdout and
stderr pair is rebound on every failing attempt, so when every alternative
fails the values finally returned belong to the last alternative tried, not
to the original command. -/
def tryAltsCE (runner : Runner) (orig : String) :
    List (String × String) → String × String → Bool × String × String
  | [], (o, e) => (false, o, e)
  | (alt, reason) :: rest, (_, _) =>
    let t := executeCommandCE runner alt
    if t.1 then
      (true,
        pyStrip t.2.1 ++ "\n[Note: Used \x27" ++ alt ++ "\x27 instead of \x27" ++
          orig ++ "\x27 (" ++ reason ++ ")]",
        t.2.2)
    else tryAltsCE runner orig rest (t.2.1, t.2.2)

/-- CommandExecutor.try_command_alternatives of aix/command_executor.py. -/
def tryCommandAlternatives (runner : Runner) (command : String) :
    Bool × String × String :=
  let t := executeCommandCE runner command
  if t.1 then t
  else tryAltsCE runner command (getCommandAlternatives command t.2.2) (t.2.1, t.2.2)

/-! ## PlaceholderExecutor, aix/placeholder_generator.py, and the variable
merge of PromptTemplate.render, aix/template.py -/

/-- Decimal digits of a natural number; the fuel exceeds the number of
divisions by ten. -/
def natStrAux : Nat → Nat → List Char
  | 0, _ => []
  | f + 1, n =>
    if n < 10 then [Char.ofNat (48 + n)]
    else natStrAux f (n / 10) ++ [Char.ofNat (48 + n % 10)]

def natStr (n : Nat) : String := String.mk (natStrAux (n + 1) n)

def intStr : Int → String
  | Int.ofNat n => natStr n
  | Int.negSucc n => "-" ++ natStr (n + 1)

/-- Value produced for one entry of the placeholders dictionary by the
executed script; python str coercion is pyStrOf. -/
inductive PyVal
  | pyInt (n : Int)
  | pyStrV (s : String)
  deriving DecidableEq

def pyStrOf : PyVal → String
  | PyVal.pyInt n => intStr n
  | PyVal.pyStrV s => s

/-- Shape of one local variable left behind by the executed script: either a
dictionary from strings to values, or anything else. -/
inductive PyLocal
  | pyDict (d : List (String × PyVal))
  | pyOther
  deriving DecidableEq

/-- PlaceholderExecutor._execute_python after the exec call. The script runs
under python exec with the restricted globals; that step is external to the
embedding, so its outcome is the argument: error e when the script raises
with message e, ok locals when it finishes leaving the given local
variables. The function body then follows the source: require a local named
placeholders holding a dictionary, coerce every value to a string, and wrap
any failure in the outer exception message. -/
def executePython (outcome : Except String (List (String × PyLocal))) :
    Except String (List (String × String)) :=
  match outcome with
  | Except.error e => Except.error ("Python execution failed: " ++ e)
  | Except.ok localVars =>
    match alookup "placeholders" localVars with
    | some (PyLocal.pyDict d) =>
      Except.ok (d.map (fun kv => (kv.1, pyStrOf kv.2)))
    | some PyLocal.pyOther =>
      Except.error "Python execution failed: placeholders must be a dictionary"
    | none =>
      Except.error
        "Python execution failed: Script must define a \x27placeholders\x27 dictionary"

/-- Variable merge of PromptTemplate.render: generated placeholders are
added one by one, each only when the caller supplied variables and earlier
merged entries do not already bind the key. -/
def mergeVars (vars gen : List (String × String)) : List (String × String) :=
  gen.foldl (fun acc kv => if (alookup kv.1 acc).isSome then acc else acc ++ [kv]) vars

/-! ## execute_generators, aix/placeholder_generator.py -/

def containsKey {α : Type} (k : String) (l : List (String × α)) : Bool :=
  (alookup k l).isSome

/-- Python dict assignment d[k] = v: replace in place when the key exists,
append otherwise. -/
def dictSet (acc : List (String × String)) (k v : String) :
    List (String × String) :=
  if containsKey k acc then acc.map (fun p => if p.1 = k then (k, v) else p)
  else acc ++ [(k, v)]

/-- Python dict.update. -/
def dictUpdate (acc upd : List (String × String)) : List (String × String) :=
  upd.foldl (fun a kv => dictSet a kv.1 kv.2) acc

/-- One iteration of PlaceholderExecutor.execute_generators: a generator
whose execution raised is caught and skipped; a falsy, empty result is also
skipped; otherwise the accumulated dictionary is updated. The outcome of
_execute_generator for each generator is the value of the list element. -/
def genStep (acc : List (String × String))
    (outcome : Except String (List (String × String))) : List (String × String) :=
  match outcome with
  | Except.error _ => acc
  | Except.ok r => if r.isEmpty then acc else dictUpdate acc r

/-- PlaceholderExecutor.execute_generators over the per generator outcomes. -/
def executeGenerators (outcomes : List (Except String (List (String × String)))) :
    List (String × String) :=
  outcomes.foldl genStep []

/-! ## Association list lemmas -/

theorem alookup_append_some {α : Type} {k : String} {v : α}
    {xs : List (String × α)} (ys : List (String × α))
    (h : alookup k xs = some v) : alookup k (xs ++ ys) = some v := by
  induction xs with
  | nil => simp [alookup] at h
  | cons p t ih =>
    simp only [alookup, List.cons_append] at h ⊢
    split at h
    · simp [*]
    · simp [*, ih h]

theorem alookup_append_self {α : Type} {k : String} {v : α}
    {xs : List (String × α)} (h : alookup k xs = none) :
    alookup k (xs ++ [(k, v)]) = some v := by
  induction xs with
  | nil => simp [alookup]
  | cons p t ih =>
    simp only [alookup, List.cons_append] at h ⊢
    split at h
    · exact absurd h (by simp)
    · simp [*, ih h]

theorem alookup_append_none_ne {α : Type} {k a : String} {v : α}
    {xs : List (String × α)} (h : alookup k xs = none) (hne : a ≠ k) :
    alookup k (xs ++ [(a, v)]) = none := by
  induction xs with
  | nil => simp [alookup, hne]
  | cons p t ih =>
    simp only [alookup, List.cons_append] at h ⊢
    split at h
    · exact absurd h (by simp)
    · simp [*, ih h]

theorem alookup_append_singleton_isSome {α : Type} {k a : String} {v : α}
    {xs : List (String × α)}
    (h : (alookup k (xs ++ [(a, v)])).isSome) :
    (alookup k xs).isSome ∨ k = a := by
  induction xs with
  | nil =>
    simp only [List.nil_append, alookup] at h
    by_cases hak : a = k
    · exact Or.inr hak.symm
    · rw [if_neg hak] at h
      simp [alookup] at h
  | cons p t ih =>
    simp only [alookup, List.cons_append] at h ⊢
    by_cases hp : p.1 = k
    · rw [if_pos hp]
      simp
    · rw [if_neg hp] at h ⊢
      exact ih h

theorem listStarts_refl : ∀ l : List Char, listStarts l l = true := by
  intro l
  induction l with
  | nil => rfl
  | cons c t ih => simp [listStarts, ih]

/-! ## runCmds lemmas -/

/-- Value stored by process_template for a payload the first time it is
executed. -/
def exeStored (exe : String → Bool × String × String) (c : String) : String :=
  pyStrip (if (exe c).1 then (exe c).2.1 else (exe c).2.2)

theorem runCmds_stable (exe : String → Bool × String × String)
    (wrap : String → String) :
    ∀ (cmds : List String) (st : PTState) (k : String) (v : String),
      alookup k st.outs = some v →
      alookup k (runCmds exe wrap cmds st).outs = some v := by
  intro cmds
  induction cmds with
  | nil => intro st k v h; simpa [runCmds]
  | cons a rest ih =>
    intro st k v h
    simp only [runCmds]
    apply ih
    unfold runStep
    cases ha : alookup a st.outs with
    | some w => simpa [ha]
    | none => simp [ha, alookup_append_some _ h]

theorem runCmds_mem (exe : String → Bool × String × String)
    (wrap : String → String) :
    ∀ (cmds : List String) (st : PTState) (c : String),
      c ∈ cmds → alookup c st.outs = none →
      alookup c (runCmds exe wrap cmds st).outs = some (exeStored exe c) := by
  intro cmds
  induction cmds with
  | nil => intro st c hc; simp at hc
  | cons a rest ih =>
    intro st c hc hnone
    simp only [runCmds]
    by_cases hac : a = c
    · subst hac
      have hstep : alookup a (runStep exe wrap a st).outs = some (exeStored exe a) := by
        unfold runStep
        simp [hnone, exeStored, alookup_append_self hnone]
      exact runCmds_stable exe wrap rest _ a _ hstep
    · have hmem : c ∈ rest := by
        rcases List.mem_cons.mp hc with h | h
        · exact absurd h.symm hac
        · exact h
      apply ih _ c hmem
      unfold runStep
      cases ha : alookup a st.outs with
      | some w => simpa [ha]
      | none => simp [ha, alookup_append_none_ne hnone hac]

theorem runCmds_nodup_inv (exe : String → Bool × String × String)
    (wrap : String → String) :
    ∀ (cmds : List String) (st : PTState),
      st.tr.Nodup → (∀ x ∈ st.tr, (alookup x st.outs).isSome) →
      (runCmds exe wrap cmds st).tr.Nodup ∧
        ∀ x ∈ (runCmds exe wrap cmds st).tr,
          (alookup x (runCmds exe wrap cmds st).outs).isSome := by
  intro cmds
  induction cmds with
  | nil => intro st h1 h2; simpa [runCmds] using ⟨h1, h2⟩
  | cons a rest ih =>
    intro st h1 h2
    simp only [runCmds]
    apply ih
    · unfold runStep
      cases ha : alookup a st.outs with
      | some w => simpa [ha]
      | none =>
        simp only [ha]
        have hnotin : a ∉ st.tr := by
          intro hin
          have := h2 a hin
          simp [ha] at this
        simpa [List.nodup_append] using ⟨h1, hnotin⟩
    · unfold runStep
      cases ha : alookup a st.outs with
      | some w =>
        simp only [ha]
        exact h2
      | none =>
        simp only [ha]
        intro x hx
        simp only [List.mem_append, List.mem_singleton] at hx
        rcases hx with hx | hx
        · have := h2 x hx
          rcases Option.isSome_iff_exists.mp this with ⟨v, hv⟩
          simp [alookup_append_some _ hv]
        · subst hx
          simp [alookup_append_self ha]

theorem runCmds_covers (exe : String → Bool × String × String)
    (wrap : String → String) :
    ∀ (cmds : List String) (st : PTState) (c : String),
      c ∈ cmds → (alookup c (runCmds exe wrap cmds st).outs).isSome := by
  intro cmds st c hc
  cases h : alookup c st.outs with
  | some v => simp [runCmds_stable exe wrap cmds st c v h]
  | none => simp [runCmds_mem exe wrap cmds st c hc h]

theorem runCmds_keys (exe : String → Bool × String × String)
    (wrap : String → String) :
    ∀ (cmds : List String) (st : PTState) (k : String),
      (alookup k (runCmds exe wrap cmds st).outs).isSome →
      (alookup k st.outs).isSome ∨ k ∈ cmds := by
  intro cmds
  induction cmds with
  | nil =>
    intro st k h
    simp only [runCmds] at h
    exact Or.inl h
  | cons a rest ih =>
    intro st k h
    simp only [runCmds] at h
    rcases ih _ k h with h2 | h2
    · unfold runStep at h2
      cases ha : alookup a st.outs with
      | some w =>
        simp only [ha] at h2
        exact Or.inl h2
      | none =>
        simp only [ha] at h2
        rcases alookup_append_singleton_isSome h2 with h3 | h3
        · exact Or.inl h3
        · subst h3
          exact Or.inr (List.mem_cons_self k rest)
    · exact Or.inr (List.mem_cons_of_mem a h2)

/-! ## Dictionary update and merge lemmas -/

theorem alookup_map_set_ne {k k1 : String} {v1 : String}
    {acc : List (String × String)} (hne : k1 ≠ k) :
    alookup k (acc.map (fun p => if p.1 = k1 then (k1, v1) else p)) =
      alookup k acc := by
  induction acc with
  | nil => simp
  | cons p t ih =>
    simp only [List.map_cons]
    by_cases hp : p.1 = k1
    · rw [if_pos hp]
      have hk2 : ¬ p.1 = k := fun h => hne (hp ▸ h)
      simp only [alookup]
      rw [if_neg hne, if_neg hk2]
      exact ih
    · rw [if_neg hp]
      simp only [alookup]
      by_cases hk : p.1 = k
      · rw [if_pos hk, if_pos hk]
      · rw [if_neg hk, if_neg hk]
        exact ih

theorem alookup_map_set_self {k : String} {v : String}
    {acc : List (String × String)} (h : (alookup k acc).isSome) :
    alookup k (acc.map (fun p => if p.1 = k then (k, v) else p)) = some v := by
  induction acc with
  | nil => simp [alookup] at h
  | cons p t ih =>
    simp only [List.map_cons]
    by_cases hk : p.1 = k
    · rw [if_pos hk]
      simp [alookup]
    · rw [if_neg hk]
      have h2 : (alookup k t).isSome := by
        simp only [alookup] at h
        rwa [if_neg hk] at h
      simp only [alookup]
      rw [if_neg hk]
      exact ih h2

theorem dictSet_self {k v : String} {acc : List (String × String)} :
    alookup k (dictSet acc k v) = some v := by
  unfold dictSet containsKey
  by_cases h : (alookup k acc).isSome
  · simp [h, alookup_map_set_self h]
  · have hn : alookup k acc = none := by
      cases ha : alookup k acc with
      | none => rfl
      | some w => simp [ha] at h
    simp [h, alookup_append_self hn]

theorem dictSet_preserve {k k1 v1 : String} {acc : List (String × String)}
    (hne : k1 ≠ k) : alookup k (dictSet acc k1 v1) = alookup k acc := by
  unfold dictSet containsKey
  by_cases h : (alookup k1 acc).isSome
  · simp [h, alookup_map_set_ne hne]
  · simp only [h, if_false, Bool.false_eq_true]
    cases ha : alookup k acc with
    | none => simp [alookup_append_none_ne ha hne]
    | some w => simp [alookup_append_some _ ha]

theorem dictUpdate_preserve_notin {k : String} :
    ∀ (rest : List (String × String)) (acc : List (String × String)),
      (∀ p ∈ rest, p.1 ≠ k) →
      alookup k (dictUpdate acc rest) = alookup k acc := by
  intro rest
  induction rest with
  | nil => intro acc _; simp [dictUpdate]
  | cons p t ih =>
    intro acc hall
    have hp : p.1 ≠ k := hall p (by simp)
    have ht : ∀ q ∈ t, q.1 ≠ k := fun q hq => hall q (by simp [hq])
    simp only [dictUpdate, List.foldl_cons]
    rw [show List.foldl (fun a kv => dictSet a kv.1 kv.2) (dictSet acc p.1 p.2) t =
      dictUpdate (dictSet acc p.1 p.2) t from rfl]
    rw [ih _ ht, dictSet_preserve hp]

theorem dictUpdate_lookup_self {k v : String} :
    ∀ (r : List (String × String)) (acc : List (String × String)),
      alookup k r = some v → (r.map Prod.fst).Nodup →
      alookup k (dictUpdate acc r) = some v := by
  intro r
  induction r with
  | nil => intro acc h; simp [alookup] at h
  | cons p t ih =>
    intro acc h hnd
    simp only [List.map_cons, List.nodup_cons] at hnd
    simp only [dictUpdate, List.foldl_cons]
    rw [show List.foldl (fun a kv => dictSet a kv.1 kv.2) (dictSet acc p.1 p.2) t =
      dictUpdate (dictSet acc p.1 p.2) t from rfl]
    by_cases hk : p.1 = k
    · have hv : p.2 = v := by
        simp [alookup, hk] at h
        exact h
      have hnotin : ∀ q ∈ t, q.1 ≠ k := by
        intro q hq
        intro hqk
        exact hnd.1 (hk ▸ hqk ▸ List.mem_map_of_mem Prod.fst hq)
      rw [dictUpdate_preserve_notin t _ hnotin, hk, hv]
      exact dictSet_self
    · have ht : alookup k t = some v := by
        simpa [alookup, hk] using h
      exact ih _ ht hnd.2

theorem mergeVars_preserve {k v : String} :
    ∀ (gen : List (String × String)) (acc : List (String × String)),
      alookup k acc = some v → alookup k (mergeVars acc gen) = some v := by
  intro gen
  induction gen with
  | nil => intro acc h; simpa [mergeVars]
  | cons p t ih =>
    intro acc h
    simp only [mergeVars, List.foldl_cons]
    rw [show List.foldl
        (fun acc kv => if (alookup kv.1 acc).isSome then acc else acc ++ [kv]) _ t =
      mergeVars _ t from rfl]
    by_cases hp : (alookup p.1 acc).isSome
    · simpa [hp] using ih _ h
    · simp only [hp, if_false, Bool.false_eq_true]
      exact ih _ (alookup_append_some _ h)

/-! ## Concrete runners used by the claim scenarios -/

def runnerEcho : Runner := fun c =>
  if c = "echo hi" then (true, "hi\n", "") else (false, "", "")

def runnerDate : Runner := fun c =>
  if c = "date" then (true, "now\n", "") else (false, "", "")

def runnerPwn : Runner := fun c =>
  if c = "echo pwned" then (true, "pwned\n", "") else (false, "", "")

def runnerPodman : Runner := fun c =>
  if c = "podman ps" then (true, "", "") else (false, "", "")

def runnerPyFail : Runner := fun c =>
  if c = "python x" then (false, "origOut", "python: command not found")
  else (false, "altOut", "altErr")

/-! ## Claim C1 -/

/-- C1: the claim states that every fallback alternative is validated by the
SecurityValidator before execution and that an alternative is never run
without an allowed decision. In aix/commands/executor.py the validator runs
only on the original command string; IntelligentShellCommand.execute hands
each alternative straight to ShellCommand.execute. With the injectable
DefaultSecurityValidator configured to disable podman, the failing command
docker ps produces the alternative podman ps, which is denied by the
validator yet still reaches the runner, as the recorded runner trace shows. -/
theorem c1_alternative_runs_without_validation :
    isAllowedSec ["podman"] "podman ps" = false ∧
    (executorExecuteT (isAllowedSec ["podman"]) getErrorMessageSec runnerPodman
        "docker ps").2 =
      ["docker ps", "which docker || echo \x27Docker not installed\x27",
        "podman ps"] := by
  constructor
  · rfl
  · rfl

/-! ## Claim C2 -/

/-- C2 counterexample: the claim states that two syntactically different
placeholders with identical underlying command text execute independently
because memoization is keyed by the placeholder string. In the render path
of aix/commands/executor.py the command_outputs dictionary is keyed by the
captured payload, so the template with both a dollar form and a cmd form of
the same payload executes the underlying command once, not twice: the trace
of payloads reaching CommandExecutor.execute has a single element. -/
theorem c2_shared_payload_single_execution :
    (processTemplateDef runnerDate "$(date) \x7bcmd:date\x7d" []).tr = ["date"] ∧
    (processTemplateDef runnerDate "$(date) \x7bcmd:date\x7d" []).res = "now now" := by
  constructor
  · rfl
  · rfl

/-- C2 amended: within one render of aix/commands/executor.py
process_template, memoization is keyed by the command payload text: every
distinct payload executes at most once across all three pattern passes (the
trace of executed payloads has no duplicates), the same placeholder text
occurring twice executes the underlying command exactly once, and two
syntactically different placeholders with the same payload share a single
execution instead of executing independently. -/
theorem c2_payload_memoized_at_most_once :
    (∀ (al : String → Bool) (em : String → String) (ex : Runner) (t : String)
        (vs : List (String × String)), (processTemplate al em ex t vs).tr.Nodup) ∧
    (processTemplateDef runnerDate "$(date) $(date)" []).tr = ["date"] ∧
    (processTemplateDef runnerDate "$(date) \x7bcmd:date\x7d" []).tr = ["date"] := by
  refine ⟨?_, rfl, rfl⟩
  intro al em ex t vs
  simp only [processTemplate]
  have h0 : (⟨substVars t vs, [], []⟩ : PTState).tr.Nodup := by simp
  have h0m : ∀ x ∈ (⟨substVars t vs, [], []⟩ : PTState).tr,
      (alookup x (⟨substVars t vs, [], []⟩ : PTState).outs).isSome := by simp
  have h1 := runCmds_nodup_inv (fun c => (executorExecuteT al em ex c).1) wrapDollar
    (extractDollar (substVars t vs)) (⟨substVars t vs, [], []⟩ : PTState) h0 h0m
  exact (runCmds_nodup_inv _ _ _ _
    (runCmds_nodup_inv _ _ _ _ h1.1 h1.2).1
    (runCmds_nodup_inv _ _ _ _ h1.1 h1.2).2).1

/-! ## Claim C3 -/

/-- C3 counterexample: the claim states that rendering the scenario template
yields fragmentOutputs with the key equal to the placeholder text with the
dollar wrapper. In aix/commands/executor.py the command_outputs dictionary
is keyed by the captured payload, so the placeholder spelled with the dollar
wrapper is not a key of the returned map. -/
theorem c3_placeholder_not_a_key :
    alookup "$(echo hi)"
      (processTemplateDef runnerEcho "User: $(echo hi), Name: \x7bname\x7d"
        [("name", "Ada")]).outs = none := by
  rfl

/-- C3 amended: for every render call the returned map has an entry for
every command payload encountered during extraction and an entry for nothing
else, in particular for no variable placeholder: a string is a key of the
returned map exactly when it is one of the payloads captured by the three
command pattern scans, for every validator, error message function, runner,
template and variable map. Keys are the payload text rather than the wrapped
placeholder, so the concrete scenario renders to the expected output with
the single fragment entry keyed by the inner command text. -/
theorem c3_fragment_outputs_keyed_by_payload :
    (∀ (al : String → Bool) (em : String → String) (ex : Runner) (t : String)
        (vs : List (String × String)) (k : String),
        (alookup k (processTemplate al em ex t vs).outs).isSome ↔
          k ∈ encounteredPayloads al em ex t vs) ∧
    processTemplateDef runnerEcho "User: $(echo hi), Name: \x7bname\x7d"
      [("name", "Ada")] =
      ⟨"User: hi, Name: Ada", [("echo hi", "hi")], ["echo hi"]⟩ := by
  refine ⟨?_, rfl⟩
  intro al em ex t vs k
  simp only [processTemplate, encounteredPayloads]
  constructor
  · intro h
    rcases runCmds_keys _ _ _ _ k h with h2 | h2
    · rcases runCmds_keys _ _ _ _ k h2 with h3 | h3
      · rcases runCmds_keys _ _ _ _ k h3 with h4 | h4
        · simp [alookup] at h4
        · simp [h4]
      · simp [h3]
    · simp [h2]
  · intro hmem
    simp only [List.mem_append] at hmem
    rcases hmem with (h1 | h1) | h1
    · rcases Option.isSome_iff_exists.mp
        (runCmds_covers (fun x => (executorExecuteT al em ex x).1) wrapDollar
          (extractDollar (substVars t vs))
          (⟨substVars t vs, [], []⟩ : PTState) k h1) with ⟨v, hv⟩
      exact Option.isSome_iff_exists.mpr
        ⟨v, runCmds_stable _ wrapExecTag _ _ k v
          (runCmds_stable _ wrapCmdTag _ _ k v hv)⟩
    · rcases Option.isSome_iff_exists.mp
        (runCmds_covers (fun x => (executorExecuteT al em ex x).1) wrapCmdTag _
          (runCmds (fun x => (executorExecuteT al em ex x).1) wrapDollar
            (extractDollar (substVars t vs))
            (⟨substVars t vs, [], []⟩ : PTState)) k h1) with ⟨v, hv⟩
      exact Option.isSome_iff_exists.mpr
        ⟨v, runCmds_stable _ wrapExecTag _ _ k v hv⟩
    · exact runCmds_covers (fun x => (executorExecuteT al em ex x).1) wrapExecTag _ _ k h1

/-- C3 witness: the key iff applied at the scenario render, at the captured
payload echo hi, with the membership hypothesis discharged by evaluation. -/
theorem c3_witness :
    (alookup "echo hi"
      (processTemplate (isAllowedSec secDefaultDisabled) getErrorMessageSec
        runnerEcho "User: $(echo hi), Name: \x7bname\x7d"
        [("name", "Ada")]).outs).isSome :=
  (c3_fragment_outputs_keyed_by_payload.1 (isAllowedSec secDefaultDisabled)
    getErrorMessageSec runnerEcho "User: $(echo hi), Name: \x7bname\x7d"
    [("name", "Ada")] "echo hi").mpr (by decide)

/-! ## Claim C4 -/

/-- C4: the claim states that fragment extraction runs once on the raw
template, commands are substituted before variables, and a supplied variable
value is never scanned for command fragments. In aix/commands/executor.py
process_template substitutes the caller variables first and extracts each
command pattern from the already substituted text, so a dollar fragment
inside a variable value is extracted and executed: the scenario stores and
runs the payload smuggled in through the variable map. -/
theorem c4_variable_value_is_scanned :
    processTemplateDef runnerPwn "\x7bname\x7d" [("name", "$(echo pwned)")] =
      ⟨"pwned", [("echo pwned", "pwned")], ["echo pwned"]⟩ := by
  rfl

/-! ## Claim C5 -/

/-- C5: the claim states that when the original command and every fallback
alternative fail, the finalized outcome carries the stdout
and stderr of the original failure. In aix/command_executor.py try_command_alternatives rebinds the
stdout and stderr variables on every failing alternative inside its loop, so
the returned pair belongs to the last alternative tried, not to the original
command, despite the comment above the final return. The runner fails the
original python command with its own texts and every alternative with
different texts; the returned outcome carries the latter. -/
theorem c5_returns_last_alternative_output :
    tryCommandAlternatives runnerPyFail "python x" = (false, "altOut", "altErr") ∧
    ¬ ((("altOut", "altErr") : String × String) =
        ("origOut", "python: command not found")) := by
  constructor
  · rfl
  · decide

/-! ## Claim C6 -/

/-- C6: for every command string whose tokenized base command, the first
token produced by shlex.split, exactly equals an entry of the active
denylist, both is_allowed implementations return false: the
DefaultSecurityValidator of aix/commands/security.py through its exact
equality check, and the CommandExecutor of aix/command_executor.py through
its startswith check. -/
theorem c6_denylisted_base_command_denied (ds : List String) (command d : String)
    (l : List String) (hsplit : shlexSplit command = some l)
    (hhead : l.head? = some d) (hmem : d ∈ ds) :
    isAllowedSec ds command = false ∧ isCommandAllowedCE ds command = false := by
  obtain ⟨t, rfl⟩ : ∃ t, l = d :: t := by
    cases l with
    | nil => simp at hhead
    | cons a t =>
      simp only [List.head?] at hhead
      exact ⟨t, by rw [Option.some.injEq] at hhead; rw [hhead]⟩
  constructor
  · unfold isAllowedSec
    by_cases hs : pyStrip command = ""
    · simp [hs]
    · have hany : ds.any (secEntryHit d (pyStrip (pyLower command))) = true :=
        List.any_eq_true.mpr ⟨d, hmem, by simp [secEntryHit]⟩
      simp [hs, hsplit, hany]
  · unfold isCommandAllowedCE
    by_cases hs : pyStrip command = ""
    · simp [hs]
    · have hany : ds.any (ceEntryHit d (pyStrip (pyLower command))) = true :=
        List.any_eq_true.mpr ⟨d, hmem,
          by simp [ceEntryHit, strStarts, listStarts_refl]⟩
      simp [hs, hsplit, hany]

/-- C6 witness: the command sudo ls has base command sudo, an entry of the
default denylist, and both validators deny it. -/
theorem c6_witness :
    isAllowedSec secDefaultDisabled "sudo ls" = false ∧
      isCommandAllowedCE secDefaultDisabled "sudo ls" = false :=
  c6_denylisted_base_command_denied secDefaultDisabled "sudo ls" "sudo"
    ["sudo", "ls"] (by rfl) (by rfl) (by decide)

/-! ## Claim C7 -/

/-- C7 counterexample: the claim states that empty, whitespace only, or
untokenizable input is denied with reason "invalid or empty command". The
denial happens, but no such reason string exists anywhere in the source:
DefaultSecurityValidator.get_error_message returns the single generic
message for every command, including the empty one. -/
theorem c7_no_invalid_or_empty_reason :
    isAllowedSec secDefaultDisabled "" = false ∧
    getErrorMessageSec "" = "Command disabled for security: " ∧
    ¬ (getErrorMessageSec "" = "invalid or empty command") := by
  refine ⟨rfl, rfl, ?_⟩
  decide

/-- C7 amended: is_allowed returns false for the empty string, for every
whitespace only string, and for every string that shlex.split cannot
tokenize, and the error message reported for such input is the generic
"Command disabled for security: " followed by the command, there being no
"invalid or empty command" reason in the code. -/
theorem c7_fail_closed (ds : List String) (s : String)
    (h : pyStrip s = "" ∨ shlexSplit s = none) :
    isAllowedSec ds s = false ∧
      getErrorMessageSec s = "Command disabled for security: " ++ s := by
  refine ⟨?_, rfl⟩
  unfold isAllowedSec
  rcases h with h | h
  · simp [h]
  · by_cases hs : pyStrip s = ""
    · simp [hs]
    · simp [hs, h]

/-- C7 witness: a string with an unbalanced double quote cannot be
tokenized and is denied with the generic message. -/
theorem c7_witness :
    isAllowedSec secDefaultDisabled "echo \"x" = false ∧
      getErrorMessageSec "echo \"x" =
        "Command disabled for security: " ++ "echo \"x" :=
  c7_fail_closed secDefaultDisabled "echo \"x" (Or.inr (by rfl))

/-! ## Claim C8 -/

/-- C8: a command fragment denied by policy is recorded as the string
"Command disabled for security: " followed by the original text and
substituted into the output, rendering continues without raising, and other
fragments are still resolved. The first part holds for every dollar fragment
of any template after variable substitution under the default policy; the
second evaluates the scenario template for every runner, the denied command
never reaching one; the third renders a template with one denied and one
allowed fragment, both positions substituted. -/
theorem c8_policy_denial_recorded_and_render_continues :
    (∀ (runner : Runner) (template : String) (vs : List (String × String))
        (c : String),
        isAllowedSec secDefaultDisabled c = false →
        c ∈ extractDollar (substVars template vs) →
        alookup c (processTemplateDef runner template vs).outs =
          some (pyStrip (getErrorMessageSec c))) ∧
    (∀ runner : Runner,
        processTemplateDef runner "$(rm -rf /tmp/x)" [] =
          ⟨"Command disabled for security: rm -rf /tmp/x",
           [("rm -rf /tmp/x", "Command disabled for security: rm -rf /tmp/x")],
           ["rm -rf /tmp/x"]⟩) ∧
    processTemplateDef runnerEcho "$(rm -rf /tmp/x) $(echo hi)" [] =
      ⟨"Command disabled for security: rm -rf /tmp/x hi",
       [("rm -rf /tmp/x", "Command disabled for security: rm -rf /tmp/x"),
        ("echo hi", "hi")],
       ["rm -rf /tmp/x", "echo hi"]⟩ := by
  refine ⟨?_, fun runner => rfl, rfl⟩
  intro runner template vs c hdenied hmem
  unfold processTemplateDef processTemplate
  have hstore : exeStored
      (fun x => (executorExecuteT (isAllowedSec secDefaultDisabled)
        getErrorMessageSec runner x).1) c = pyStrip (getErrorMessageSec c) := by
    unfold exeStored executorExecuteT
    simp [hdenied]
  have h1 := runCmds_mem
    (fun x => (executorExecuteT (isAllowedSec secDefaultDisabled)
      getErrorMessageSec runner x).1) wrapDollar
    (extractDollar (substVars template vs))
    (⟨substVars template vs, [], []⟩ : PTState) c hmem (by rfl)
  rw [hstore] at h1
  exact runCmds_stable _ wrapExecTag _ _ c _ (runCmds_stable _ wrapCmdTag _ _ c _ h1)

/-- C8 witness: the general part applied to the scenario template under the
default policy. -/
theorem c8_witness :
    alookup "rm -rf /tmp/x"
      (processTemplateDef runnerEcho "$(rm -rf /tmp/x)" []).outs =
      some (pyStrip (getErrorMessageSec "rm -rf /tmp/x")) :=
  c8_policy_denial_recorded_and_render_continues.1 runnerEcho "$(rm -rf /tmp/x)" []
    "rm -rf /tmp/x" (by rfl) (by decide)

/-! ## Claim C9 -/

/-- C9: the python generator must leave a local named placeholders holding a
dictionary; every value of that dictionary is coerced to a string; any other
shape, or a script that raises, is a generator level failure; and a
generated key is merged into the variable map of the render only when the caller
did not supply that key. The outcome argument of executePython stands for
the exec of the untrusted script: the concrete conjunct takes the outcome of
the script assigning the dictionary with x bound to one plus one, namely the
integer two, and the merged map binds x to the string form. -/
theorem c9_placeholders_dict_coerced_and_merged :
    (∀ (localVars : List (String × PyLocal)) (d : List (String × PyVal)),
        alookup "placeholders" localVars = some (PyLocal.pyDict d) →
        executePython (Except.ok localVars) =
          Except.ok (d.map (fun kv => (kv.1, pyStrOf kv.2)))) ∧
    (∀ localVars : List (String × PyLocal),
        alookup "placeholders" localVars = some PyLocal.pyOther →
        executePython (Except.ok localVars) =
          Except.error "Python execution failed: placeholders must be a dictionary") ∧
    (∀ localVars : List (String × PyLocal),
        alookup "placeholders" localVars = none →
        executePython (Except.ok localVars) =
          Except.error
            "Python execution failed: Script must define a \x27placeholders\x27 dictionary") ∧
    (∀ e : String,
        executePython (Except.error e) =
          Except.error ("Python execution failed: " ++ e)) ∧
    (∀ (vars gen : List (String × String)) (k v : String),
        alookup k vars = some v → alookup k (mergeVars vars gen) = some v) ∧
    (∀ (vars rest : List (String × String)) (k v : String),
        alookup k vars = none →
        alookup k (mergeVars vars ((k, v) :: rest)) = some v) ∧
    executePython
        (Except.ok [("placeholders", PyLocal.pyDict [("x", PyVal.pyInt 2)])]) =
      Except.ok [("x", "2")] ∧
    alookup "x" (mergeVars [] [("x", "2")]) = some "2" := by
  refine ⟨?_, ?_, ?_, ?_, ?_, ?_, rfl, rfl⟩
  · intro lv d h
    simp [executePython, h]
  · intro lv h
    simp [executePython, h]
  · intro lv h
    simp [executePython, h]
  · intro e
    rfl
  · intro vars gen k v h
    exact mergeVars_preserve gen vars h
  · intro vars rest k v h
    have hstep : mergeVars vars ((k, v) :: rest) = mergeVars (vars ++ [(k, v)]) rest := by
      simp [mergeVars, List.foldl_cons, h]
    rw [hstep]
    exact mergeVars_preserve rest _ (alookup_append_self h)

/-- C9 witness: the dictionary conjunct at the concrete scenario and the
merge conjuncts at concrete maps. -/
theorem c9_witness :
    executePython
        (Except.ok [("placeholders", PyLocal.pyDict [("x", PyVal.pyInt 2)])]) =
      Except.ok ([("x", PyVal.pyInt 2)].map (fun kv => (kv.1, pyStrOf kv.2))) ∧
    alookup "x" (mergeVars [("x", "caller")] [("x", "2")]) = some "caller" ∧
    alookup "y" (mergeVars [("x", "caller")] [("y", "2")]) = some "2" :=
  ⟨c9_placeholders_dict_coerced_and_merged.1 _ _ (by rfl),
   c9_placeholders_dict_coerced_and_merged.2.2.2.2.1 [("x", "caller")] [("x", "2")]
     "x" "caller" (by rfl),
   c9_placeholders_dict_coerced_and_merged.2.2.2.2.2.1 [("x", "caller")] []
     "y" "2" (by rfl)⟩

/-! ## Claim C10 -/

/-- C10: when several generators in one batch produce the same key, the
later generator in list order wins in the mapping returned by
execute_generators, and a failing generator contributes nothing without
affecting the keys contributed by the others: a generator appended last with
a key bound in its result determines the final binding of that key, an
erroring generator appended to any batch leaves the result unchanged, and
the concrete batch with a duplicate key around a failing middle generator
keeps the later value and the untouched sibling key. -/
theorem c10_later_generator_wins_failures_skipped :
    (∀ (outcomes : List (Except String (List (String × String))))
        (r : List (String × String)) (k v : String),
        alookup k r = some v → (r.map Prod.fst).Nodup →
        alookup k (executeGenerators (outcomes ++ [Except.ok r])) = some v) ∧
    (∀ (outcomes : List (Except String (List (String × String)))) (e : String),
        executeGenerators (outcomes ++ [Except.error e]) =
          executeGenerators outcomes) ∧
    executeGenerators [Except.ok [("k", "v1"), ("a", "1")], Except.error "boom",
        Except.ok [("k", "v2")]] = [("k", "v2"), ("a", "1")] := by
  refine ⟨?_, ?_, rfl⟩
  · intro outcomes r k v h hnd
    have hfold : executeGenerators (outcomes ++ [Except.ok r]) =
        genStep (executeGenerators outcomes) (Except.ok r) := by
      simp [executeGenerators, List.foldl_append]
    rw [hfold]
    have hne : ¬ r.isEmpty := by
      cases r with
      | nil => simp [alookup] at h
      | cons p t => simp
    simp only [genStep, hne, if_false, Bool.false_eq_true]
    exact dictUpdate_lookup_self r _ h hnd
  · intro outcomes e
    simp [executeGenerators, List.foldl_append, genStep]

/-- C10 witness: the overwrite conjunct at a concrete two generator batch. -/
theorem c10_witness :
    alookup "k" (executeGenerators
        [Except.ok [("k", "v1")], Except.ok [("k", "v2")]]) = some "v2" :=
  c10_later_generator_wins_failures_skipped.1 [Except.ok [("k", "v1")]]
    [("k", "v2")] "k" "v2" (by rfl) (by simp)
